import Mathlib

/-!
Verification development for the MM spread-trading bot.

The definitions below are a shallow embedding of the Python sources:
  * `spread_detector.py`   — `SpreadDetector.detect_spread`
  * `trade_analytics.py`   — `TradeAnalytics._calculate_pnl`
  * `gateio_trading_manager.py` — `GateIOTradingManager` (position ledger:
    `calculate_unrealized_pnl`, `calculate_position_size`,
    `sync_positions_from_gateio`, `open_position`, `close_position`,
    `close_partial_position`, `set_stop_loss_at_entry`, `check_exit_conditions`)
  * `gateio_futures_spread_bot.py` — the exit-check section of
    `GateIOSpreadBot.on_ticker_update`.

Python floats are modelled as exact rationals (`ℚ`), Python dicts keyed by
symbol as association lists in insertion order (assignment replaces in place,
new keys are appended, mirroring CPython dict semantics), and the remote
exchange (Gate.io REST API) as an explicit environment record carrying the
force-refreshed position snapshot and the success/failure outcome of each
gateway call.  Every gateway order that is successfully placed is collected
in an order trace so that theorems can speak about which orders a code path
submits.
-/

namespace MM

/-- Association-list lookup: first binding for the key, mirroring a Python
dict read (keys are unique in every reachable state). -/
def lookupA {α : Type} : List (String × α) → String → Option α
  | [], _ => none
  | (k, v) :: t, s => if k = s then some v else lookupA t s

/-- Association-list insert mirroring Python dict assignment: an existing
key's value is replaced in place, a new key is appended at the end. -/
def insertA {α : Type} : List (String × α) → String → α → List (String × α)
  | [], s, v => [(s, v)]
  | (k, w) :: t, s, v => if k = s then (s, v) :: t else (k, w) :: insertA t s v

/-- Association-list delete mirroring Python `del d[key]` (removes the first
binding for the key). -/
def eraseA {α : Type} : List (String × α) → String → List (String × α)
  | [], _ => []
  | (k, w) :: t, s => if k = s then t else (k, w) :: eraseA t s

/-- In-place update of the value stored for a key, mirroring a Python
mutation of a dict entry (`d[key]['field'] = ...`). -/
def modifyA {α : Type} : List (String × α) → String → (α → α) → List (String × α)
  | [], _, _ => []
  | (k, w) :: t, s, f => if k = s then (k, f w) :: t else (k, w) :: modifyA t s f

/-- The keys of an association list are pairwise distinct (every Python dict
satisfies this). -/
def keysNodup {α : Type} (l : List (String × α)) : Prop :=
  (l.map Prod.fst).Nodup

instance {α : Type} (l : List (String × α)) : Decidable (keysNodup l) :=
  List.nodupDecidable _

/-- Python 3 `round(x)`: round half to even (banker's rounding), as used by
`int(round(quantity, 0))` in `calculate_position_size`. -/
def pyRound (q : ℚ) : ℤ :=
  let f : ℤ := ⌊q⌋
  if q - f < 1 / 2 then f
  else if 1 / 2 < q - f then f + 1
  else if f % 2 = 0 then f else f + 1

/-- Position direction, the `'long'` / `'short'` strings of the Python code. -/
inductive Side : Type
  | long
  | short
  deriving DecidableEq, Repr

/-- Swap of the two directions (Long ↔ Short). -/
def Side.swap : Side → Side
  | .long => .short
  | .short => .long

/-- `spread_detector.SpreadOpportunity` (the float fields, as rationals). -/
structure SpreadOpportunity : Type where
  symbol : String
  markPrice : ℚ
  lastPrice : ℚ
  spreadPercent : ℚ
  signalType : Side
  timestamp : ℚ
  deriving DecidableEq, Repr

/-- `spread_detector.SpreadDetector` state: the configured minimum threshold
and the per-symbol last-alert timestamps (`self.last_alert`). -/
structure SpreadDetector : Type where
  minThreshold : ℚ
  lastAlert : List (String × ℚ)
  deriving DecidableEq, Repr

/-- `SpreadDetector.alert_cooldown` (60 seconds). -/
def alertCooldown : ℚ := 60

/-- The cooldown guard of `detect_spread`: true when the symbol has a
recorded alert less than 60 seconds before `now`. -/
def cooldownBlocked (d : SpreadDetector) (sym : String) (now : ℚ) : Bool :=
  match lookupA d.lastAlert sym with
  | some t0 => decide (now - t0 < alertCooldown)
  | none => false

/-- `SpreadDetector.detect_spread`, with `time.time()` passed explicitly as
`now`.  Returns the updated detector state and the optional opportunity. -/
def detect_spread (d : SpreadDetector) (sym : String) (markPrice lastPrice now : ℚ) :
    SpreadDetector × Option SpreadOpportunity :=
  if markPrice ≤ 0 ∨ lastPrice ≤ 0 then (d, none)
  else if cooldownBlocked d sym now then (d, none)
  else if lastPrice < markPrice then
    if d.minThreshold ≤ (markPrice - lastPrice) / lastPrice * 100 then
      ({ d with lastAlert := insertA d.lastAlert sym now },
        some ⟨sym, markPrice, lastPrice, (markPrice - lastPrice) / lastPrice * 100, .long, now⟩)
    else (d, none)
  else if markPrice < lastPrice then
    if d.minThreshold ≤ (lastPrice - markPrice) / markPrice * 100 then
      ({ d with lastAlert := insertA d.lastAlert sym now },
        some ⟨sym, markPrice, lastPrice, (lastPrice - markPrice) / markPrice * 100, .short, now⟩)
    else (d, none)
  else (d, none)

/-- The directional spread of the detector, defined for unequal prices: the
Long formula when the mark price is above the last price, the Short formula
when it is below. -/
def dirSpread (markPrice lastPrice : ℚ) : ℚ :=
  if lastPrice < markPrice then (markPrice - lastPrice) / lastPrice * 100
  else (lastPrice - markPrice) / markPrice * 100

/-- One tracked position, the per-symbol dict stored in
`GateIOTradingManager.open_positions`.  `partialClosed` models the
`'partial_closed'` flag (absent ↔ `false`), `stopLossSet` models the
presence of `'stop_loss_order_id'`. -/
structure Position : Type where
  side : Side
  size : ℕ
  entryPrice : ℚ
  entryTime : ℚ
  entrySpread : ℚ
  quantoMultiplier : ℚ
  partialClosed : Bool
  stopLossSet : Bool
  deriving DecidableEq, Repr

/-- One exchange-reported position from the forced
`get_real_positions_cached(force_refresh=True)` snapshot (zero-size entries
are already skipped there; `size` is the absolute contract count). -/
structure RemotePos : Type where
  side : Side
  size : ℕ
  entryPrice : ℚ
  deriving DecidableEq, Repr

/-- The contract specification fields `calculate_position_size` reads from
`get_futures_contract`: the quanto multiplier and the optional minimum order
size. -/
structure ContractInfo : Type where
  quantoMultiplier : ℚ
  orderSizeMin : Option ℚ
  deriving DecidableEq, Repr

/-- A futures order successfully placed through
`futures_api.create_futures_order` / `create_price_triggered_order`
(contract, signed size, reduce-only flag, and the `text` tag identifying the
code path: `t-spread`, `t-close`, `t-partial`, `t-stoploss`). -/
structure Order : Type where
  contract : String
  size : ℤ
  reduceOnly : Bool
  text : String
  deriving DecidableEq, Repr

/-- The `trade_data` dict handed to `TradeAnalytics.log_trade`. -/
structure TradeData : Type where
  symbol : String
  side : Side
  entryPrice : ℚ
  exitPrice : ℚ
  size : ℕ
  leverage : ℚ
  entrySpread : ℚ
  exitSpread : ℚ
  entryTime : ℚ
  exitTime : ℚ
  quantoMultiplier : ℚ
  realPnlUsd : Option ℚ
  deriving DecidableEq, Repr

/-- The record produced by `TradeAnalytics._calculate_pnl` (the fields the
claims are about). -/
structure PnlRecord : Type where
  symbol : String
  side : Side
  entryPrice : ℚ
  exitPrice : ℚ
  size : ℕ
  pnlUsd : ℚ
  pnlPercent : ℚ
  holdTimeSeconds : ℚ
  deriving DecidableEq, Repr

/-- `TradeAnalytics._calculate_pnl`: uses the exchange-reported realized
P&L when present, otherwise the manual side-signed formula; the percentage
is relative to the margin used (guarded by `margin_used > 0`). -/
def calculate_pnl (td : TradeData) : PnlRecord :=
  let priceDiff :=
    match td.side with
    | .long => td.exitPrice - td.entryPrice
    | .short => td.entryPrice - td.exitPrice
  let pnlUsd :=
    match td.realPnlUsd with
    | some r => r
    | none => (td.size : ℚ) * priceDiff * td.quantoMultiplier
  let positionValue := (td.size : ℚ) * td.entryPrice * td.quantoMultiplier
  let marginUsed := positionValue / td.leverage
  let pnlPercent := if 0 < marginUsed then pnlUsd / marginUsed * 100 else 0
  { symbol := td.symbol
    side := td.side
    entryPrice := td.entryPrice
    exitPrice := td.exitPrice
    size := td.size
    pnlUsd := pnlUsd
    pnlPercent := pnlPercent
    holdTimeSeconds := td.exitTime - td.entryTime }

/-- `GateIOTradingManager` state: the configuration fields and the local
position ledger `open_positions`, plus the analytics trade log
(`TradeAnalytics.trades`). -/
structure Manager : Type where
  positionSizeUsd : ℚ
  leverage : ℚ
  maxPositions : ℕ
  exitSpreadThreshold : ℚ
  openPositions : List (String × Position)
  trades : List PnlRecord
  deriving DecidableEq, Repr

/-- The result dict of `GateIOTradingManager.calculate_unrealized_pnl`. -/
structure PnlTriple : Type where
  pnlUsd : ℚ
  roiPct : ℚ
  pnlCents : ℚ
  deriving DecidableEq, Repr

/-- `GateIOTradingManager.calculate_unrealized_pnl`. -/
def calculate_unrealized_pnl (m : Manager) (sym : String) (currentPrice : ℚ) : PnlTriple :=
  match lookupA m.openPositions sym with
  | none => ⟨0, 0, 0⟩
  | some pos =>
      let priceDiff :=
        match pos.side with
        | .long => currentPrice - pos.entryPrice
        | .short => pos.entryPrice - currentPrice
      let unrealizedPnl := (pos.size : ℚ) * priceDiff * pos.quantoMultiplier
      let positionValue := (pos.size : ℚ) * pos.entryPrice * pos.quantoMultiplier
      let marginUsed := positionValue / m.leverage
      let roiPct := if 0 < marginUsed then unrealizedPnl / marginUsed * 100 else 0
      ⟨unrealizedPnl, roiPct, unrealizedPnl * 100⟩

/-- `GateIOTradingManager.calculate_position_size` on its non-exceptional
paths: the contract info is an explicit input (`none` models a missing
contract / falsy quanto, taking the estimate branch); a falsy
`order_size_min` defaults to 1. -/
def calculate_position_size (m : Manager) (price : ℚ) (contract : Option ContractInfo) : ℤ :=
  match contract with
  | none => pyRound (m.positionSizeUsd * m.leverage / price)
  | some c =>
      if c.quantoMultiplier = 0 then pyRound (m.positionSizeUsd * m.leverage / price)
      else
        let quantity := m.positionSizeUsd * m.leverage / (price * c.quantoMultiplier)
        let minSize :=
          match c.orderSizeMin with
          | some ms => if ms = 0 then 1 else ms
          | none => 1
        let clamped := if |quantity| < minSize then (if 0 < quantity then minSize else -minSize) else quantity
        pyRound clamped

/-- The position record `sync_positions_from_gateio` writes for a remote
position: remote side/size/entry price, `entry_time = now`,
`entry_spread = 0`, default quanto `0.0001`, no partial-close flag. -/
def adoptPosition (rp : RemotePos) (now : ℚ) : Position :=
  { side := rp.side
    size := rp.size
    entryPrice := rp.entryPrice
    entryTime := now
    entrySpread := 0
    quantoMultiplier := 1 / 10000
    partialClosed := false
    stopLossSet := false }

/-- `GateIOTradingManager.sync_positions_from_gateio`: writes every position
of the forced remote snapshot into `open_positions` (and nothing else). -/
def sync_positions_from_gateio (m : Manager) (remote : List (String × RemotePos)) (now : ℚ) :
    Manager :=
  { m with
    openPositions :=
      remote.foldl (fun acc kv => insertA acc kv.1 (adoptPosition kv.2 now)) m.openPositions }

/-- The gateway environment of one ledger operation: the force-refreshed
remote snapshot, the contract info returned by `get_futures_contract`, the
success/failure outcome of each kind of gateway call, the realized P&L the
exchange reports for the latest close (if retrievable), and the wall clock. -/
structure GatewayEnv : Type where
  remote : List (String × RemotePos)
  contract : Option ContractInfo
  openOrderOk : Bool
  partialOrderOk : Bool
  closeOrderOk : Bool
  stopArmOk : Bool
  realPnl : Option ℚ
  now : ℚ
  deriving DecidableEq, Repr

/-- `GateIOTradingManager.open_position` (body of the `with self.position_lock`
block; the lock serializes calls, so one call is one atomic step).  Checks,
in source order: `can_open_position()` (local count below `max_positions`),
then the symbol against the force-refreshed remote snapshot; computes the
size, signs it by direction, and on a successful order inserts the tracked
position.  Returns the new state, the boolean result, and the orders placed. -/
def open_position (m : Manager) (opp : SpreadOpportunity) (env : GatewayEnv) :
    Manager × Bool × List Order :=
  if m.openPositions.length < m.maxPositions then
    match lookupA env.remote opp.symbol with
    | some _ => (m, false, [])
    | none =>
        let entryPrice := opp.lastPrice
        let size := calculate_position_size m entryPrice env.contract
        if size = 0 then (m, false, [])
        else
          let signedSize : ℤ :=
            match opp.signalType with
            | .short => -(size.natAbs : ℤ)
            | .long => (size.natAbs : ℤ)
          if env.openOrderOk then
            let quanto :=
              match env.contract with
              | some c => c.quantoMultiplier
              | none => 1 / 10000
            let pos : Position :=
              { side := opp.signalType
                size := signedSize.natAbs
                entryPrice := entryPrice
                entryTime := env.now
                entrySpread := opp.spreadPercent
                quantoMultiplier := quanto
                partialClosed := false
                stopLossSet := false }
            ({ m with openPositions := insertA m.openPositions opp.symbol pos }, true,
              [⟨opp.symbol, signedSize, false, "t-spread"⟩])
          else (m, false, [])
  else (m, false, [])

/-- `GateIOTradingManager.close_position`: if the symbol is tracked locally
but absent from the forced remote snapshot, the local record is deleted and
`None` returned with no order; otherwise a reduce-only order of the full
remote size in the opposite direction is placed, the trade logged, and the
position removed. -/
def close_position (m : Manager) (sym : String) (exitPrice exitSpread : ℚ)
    (env : GatewayEnv) : Manager × Option PnlRecord × List Order :=
  match lookupA m.openPositions sym with
  | none => (m, none, [])
  | some pos =>
      match lookupA env.remote sym with
      | none => ({ m with openPositions := eraseA m.openPositions sym }, none, [])
      | some rp =>
          if env.closeOrderOk then
            let closeSize : ℤ :=
              match pos.side with
              | .long => -(rp.size : ℤ)
              | .short => (rp.size : ℤ)
            let td : TradeData :=
              { symbol := sym
                side := pos.side
                entryPrice := pos.entryPrice
                exitPrice := exitPrice
                size := pos.size
                leverage := m.leverage
                entrySpread := pos.entrySpread
                exitSpread := exitSpread
                entryTime := pos.entryTime
                exitTime := env.now
                quantoMultiplier := pos.quantoMultiplier
                realPnlUsd := env.realPnl }
            let pnlData := calculate_pnl td
            ({ m with
                openPositions := eraseA m.openPositions sym
                trades := m.trades ++ [pnlData] }, some pnlData,
              [⟨sym, closeSize, true, "t-close"⟩])
          else (m, none, [])

/-- `GateIOTradingManager.close_partial_position`: closes
`int(remoteSize * percent / 100)` contracts reduce-only; on success logs the
partial trade and reduces the tracked size to the remainder. -/
def close_partial_position (m : Manager) (sym : String) (exitPrice exitSpread : ℚ)
    (percent : ℕ) (env : GatewayEnv) : Manager × Option PnlRecord × List Order :=
  match lookupA m.openPositions sym with
  | none => (m, none, [])
  | some pos =>
      match lookupA env.remote sym with
      | none => (m, none, [])
      | some rp =>
          let totalSize := rp.size
          let partialSize := totalSize * percent / 100
          if partialSize = 0 then (m, none, [])
          else if env.partialOrderOk then
            let closeSize : ℤ :=
              match pos.side with
              | .long => -(partialSize : ℤ)
              | .short => (partialSize : ℤ)
            let td : TradeData :=
              { symbol := sym
                side := pos.side
                entryPrice := pos.entryPrice
                exitPrice := exitPrice
                size := partialSize
                leverage := m.leverage
                entrySpread := pos.entrySpread
                exitSpread := exitSpread
                entryTime := pos.entryTime
                exitTime := env.now
                quantoMultiplier := pos.quantoMultiplier
                realPnlUsd := env.realPnl }
            let pnlData := calculate_pnl td
            ({ m with
                openPositions := modifyA m.openPositions sym
                  (fun p => { p with size := totalSize - partialSize })
                trades := m.trades ++ [pnlData] }, some pnlData,
              [⟨sym, closeSize, true, "t-partial"⟩])
          else (m, none, [])

/-- `GateIOTradingManager.set_stop_loss_at_entry`: places a reduce-only
price-triggered order at the entry price for the remaining remote size;
on success records the stop-loss order id on the position. -/
def set_stop_loss_at_entry (m : Manager) (sym : String) (env : GatewayEnv) :
    Manager × Bool × List Order :=
  match lookupA m.openPositions sym with
  | none => (m, false, [])
  | some pos =>
      match lookupA env.remote sym with
      | none => (m, false, [])
      | some rp =>
          if env.stopArmOk then
            let triggerSize : ℤ :=
              match pos.side with
              | .long => -(rp.size : ℤ)
              | .short => (rp.size : ℤ)
            ({ m with
                openPositions := modifyA m.openPositions sym
                  (fun p => { p with stopLossSet := true }) }, true,
              [⟨sym, triggerSize, true, "t-stoploss"⟩])
          else (m, false, [])

/-- `GateIOTradingManager.check_exit_conditions`: partial take-profit of 50%
when unrealized ROI reaches the threshold and `partial_closed` is not yet
set (then the flag is set and a protective stop is attempted, its failure
ignored, and the partial result returned); otherwise, full exit when the
current spread has collapsed to the exit threshold. -/
def check_exit_conditions (m : Manager) (sym : String)
    (currentSpread exitPrice takeProfitRoi : ℚ) (env : GatewayEnv) :
    Manager × Option PnlRecord × List Order :=
  match lookupA m.openPositions sym with
  | none => (m, none, [])
  | some pos =>
      let currentRoi := (calculate_unrealized_pnl m sym exitPrice).roiPct
      if takeProfitRoi ≤ currentRoi ∧ pos.partialClosed = false then
        let pr := close_partial_position m sym exitPrice currentSpread 50 env
        match pr.2.1 with
        | some tr =>
            let m2 :=
              { pr.1 with
                openPositions := modifyA pr.1.openPositions sym
                  (fun p => { p with partialClosed := true }) }
            let sl := set_stop_loss_at_entry m2 sym env
            (sl.1, some tr, pr.2.2 ++ sl.2.2)
        | none =>
            if currentSpread ≤ m.exitSpreadThreshold then
              let cp := close_position pr.1 sym exitPrice currentSpread env
              (cp.1, cp.2.1, pr.2.2 ++ cp.2.2)
            else (pr.1, none, pr.2.2)
      else
        if currentSpread ≤ m.exitSpreadThreshold then
          close_position m sym exitPrice currentSpread env
        else (m, none, [])

/-- The exit-check section of `GateIOSpreadBot.on_ticker_update` (the part
guarded by `has_position(symbol)`): computes the current spread in the
direction of the tracked side, forcing it to 0 when the mark/last
relationship has reversed, then calls `check_exit_conditions`. -/
def on_ticker_exit_check (m : Manager) (sym : String) (markPrice lastPrice takeProfitRoi : ℚ)
    (env : GatewayEnv) : Manager × Option PnlRecord × List Order :=
  if markPrice ≤ 0 ∨ lastPrice ≤ 0 then (m, none, [])
  else
    match lookupA m.openPositions sym with
    | none => (m, none, [])
    | some pos =>
        let currentSpread :=
          match pos.side with
          | .long => if lastPrice < markPrice then (markPrice - lastPrice) / lastPrice * 100 else 0
          | .short => if markPrice < lastPrice then (lastPrice - markPrice) / markPrice * 100 else 0
        check_exit_conditions m sym currentSpread lastPrice takeProfitRoi env

/-- One exit-check tick for a fixed symbol: the current spread, the exit
price, the take-profit threshold, and the gateway environment of that tick. -/
structure ExitTick : Type where
  currentSpread : ℚ
  exitPrice : ℚ
  takeProfitRoi : ℚ
  env : GatewayEnv
  deriving DecidableEq, Repr

/-- Repeated `check_exit_conditions` ticks for one symbol, collecting every
order placed along the way. -/
def runExitChecks (m : Manager) (sym : String) : List ExitTick → Manager × List Order
  | [] => (m, [])
  | t :: ts =>
      let r := check_exit_conditions m sym t.currentSpread t.exitPrice t.takeProfitRoi t.env
      let rest := runExitChecks r.1 sym ts
      (rest.1, r.2.2 ++ rest.2)

/-- Number of partial-close orders (`text = "t-partial"`) in an order trace. -/
def countPartialOrders (l : List Order) : ℕ :=
  (l.filter (fun o => o.text = "t-partial")).length

/-- The take-profit rule has already fired for this symbol (or the position
is gone): any tracked position carries `partialClosed = true`. -/
def PartialDone (m : Manager) (sym : String) : Prop :=
  ∀ p, lookupA m.openPositions sym = some p → p.partialClosed = true

/-- Whether a `close_partial_position` call for `sym` at 50% would succeed in
this gateway environment: the symbol is in the remote snapshot, half of its
remote size is nonzero, and the partial order is accepted. -/
def partialCloseOk (sym : String) (env : GatewayEnv) : Bool :=
  match lookupA env.remote sym with
  | none => false
  | some rp => (!(rp.size * 50 / 100 == 0)) && env.partialOrderOk

/-- A sample configuration: $2 margin at 20x leverage, at most 3 positions,
2% exit spread threshold, no tracked positions. -/
def sampleManager : Manager :=
  { positionSizeUsd := 2
    leverage := 20
    maxPositions := 3
    exitSpreadThreshold := 2
    openPositions := []
    trades := [] }

/-- A sample tracked long position: 1000 contracts entered at price 100 with
quanto multiplier 0.0001, take-profit not yet taken. -/
def samplePosition : Position :=
  { side := .long
    size := 1000
    entryPrice := 100
    entryTime := 0
    entrySpread := 5
    quantoMultiplier := 1 / 10000
    partialClosed := false
    stopLossSet := false }

/-- The sample manager tracking the sample position under symbol `A`. -/
def mgrA : Manager := { sampleManager with openPositions := [("A", samplePosition)] }

/-- A long opportunity on symbol `A` (mark 107, last 100, spread 7%). -/
def oppLongA : SpreadOpportunity := ⟨"A", 107, 100, 7, .long, 0⟩

/-- A gateway environment whose forced remote snapshot is empty and whose
calls all succeed. -/
def envEmptyRemote : GatewayEnv :=
  { remote := []
    contract := some ⟨1 / 10000, some 1⟩
    openOrderOk := true
    partialOrderOk := true
    closeOrderOk := true
    stopArmOk := true
    realPnl := none
    now := 10 }

/-- A gateway environment whose forced remote snapshot reports a 1000-lot
long on symbol `A`; all calls succeed. -/
def envRemoteA : GatewayEnv := { envEmptyRemote with remote := [("A", ⟨.long, 1000, 100⟩)] }

/-- A two-position remote snapshot. -/
def remoteTwo : List (String × RemotePos) := [("A", ⟨.long, 5, 10⟩), ("B", ⟨.short, 3, 20⟩)]

/-- The sample manager restricted to a single-position cap. -/
def mgrMax1 : Manager := { sampleManager with maxPositions := 1 }

/-- A manager whose sizing inputs give quantity 2 * 3 / (4 * 1) = 1.5. -/
def mgrHalf : Manager := { sampleManager with positionSizeUsd := 2, leverage := 3 }

/-- The round-trip trade of the P&L scenario: long, entry 100, exit 110,
1000 contracts, quanto 0.0001, leverage 20, no exchange-reported P&L. -/
def tdRoundTrip : TradeData :=
  { symbol := "A"
    side := .long
    entryPrice := 100
    exitPrice := 110
    size := 1000
    leverage := 20
    entrySpread := 0
    exitSpread := 0
    entryTime := 0
    exitTime := 60
    quantoMultiplier := 1 / 10000
    realPnlUsd := none }

/-- A fresh detector with a 7% minimum threshold. -/
def detector7 : SpreadDetector := ⟨7, []⟩

/-- The sample position after its take-profit has fired. -/
def samplePositionTaken : Position := { samplePosition with partialClosed := true }

/-- The sample position on the short side. -/
def samplePositionShort : Position := { samplePosition with side := .short }

/-- The sample manager tracking the short sample position under symbol `A`. -/
def mgrShort : Manager := { sampleManager with openPositions := [("A", samplePositionShort)] }

/-- The sample manager tracking the sample position with the take-profit
flag already set. -/
def mgrTaken : Manager := { sampleManager with openPositions := [("A", samplePositionTaken)] }

/-- One exit-check tick at spread 5%, price 110, take-profit threshold 50%,
against the snapshot reporting the 1000-lot long on `A`. -/
def tickW : ExitTick := ⟨5, 110, 50, envRemoteA⟩

theorem lookupA_insertA_self {α : Type} (l : List (String × α)) (k : String) (v : α) :
    lookupA (insertA l k v) k = some v := by
  induction l with
  | nil => simp [insertA, lookupA]
  | cons h t ih =>
      obtain ⟨k0, v0⟩ := h
      by_cases hk : k0 = k
      · simp [insertA, hk, lookupA]
      · simp [insertA, hk, lookupA, ih]

theorem lookupA_insertA_ne {α : Type} (l : List (String × α)) (k a : String) (v : α)
    (h : k ≠ a) : lookupA (insertA l k v) a = lookupA l a := by
  induction l with
  | nil => simp [insertA, lookupA, h]
  | cons hd t ih =>
      obtain ⟨k0, v0⟩ := hd
      by_cases hk : k0 = k
      · subst hk
        simp [insertA, lookupA, h]
      · simp [insertA, hk, lookupA, ih]

theorem mem_keys_insertA {α : Type} (l : List (String × α)) (k a : String) (v : α) :
    a ∈ (insertA l k v).map Prod.fst ↔ a = k ∨ a ∈ l.map Prod.fst := by
  induction l with
  | nil => simp [insertA]
  | cons hd t ih =>
      obtain ⟨k0, v0⟩ := hd
      by_cases hk : k0 = k
      · subst hk
        have he : insertA ((k0, v0) :: t) k0 v = (k0, v) :: t := by
          simp [insertA]
        rw [he]
        simp only [List.map_cons, List.mem_cons]
        tauto
      · simp only [insertA, if_neg hk, List.map_cons, List.mem_cons, ih]
        tauto

theorem keys_modifyA {α : Type} (l : List (String × α)) (k : String) (f : α → α) :
    (modifyA l k f).map Prod.fst = l.map Prod.fst := by
  induction l with
  | nil => rfl
  | cons hd t ih =>
      obtain ⟨k0, v0⟩ := hd
      by_cases hk : k0 = k
      · simp [modifyA, hk]
      · simp [modifyA, hk, ih]

theorem keys_eraseA_sublist {α : Type} (l : List (String × α)) (k : String) :
    ((eraseA l k).map Prod.fst).Sublist (l.map Prod.fst) := by
  induction l with
  | nil => simp [eraseA]
  | cons hd t ih =>
      obtain ⟨k0, v0⟩ := hd
      by_cases hk : k0 = k
      · simp only [eraseA, if_pos hk, List.map_cons]
        exact (List.Sublist.refl _).cons _
      · simp only [eraseA, if_neg hk, List.map_cons]
        exact ih.cons₂ _

theorem keysNodup_insertA {α : Type} (l : List (String × α)) (k : String) (v : α)
    (h : keysNodup l) : keysNodup (insertA l k v) := by
  induction l with
  | nil => simp [insertA, keysNodup]
  | cons hd t ih =>
      obtain ⟨k0, v0⟩ := hd
      unfold keysNodup at h
      simp only [List.map_cons, List.nodup_cons] at h
      by_cases hk : k0 = k
      · subst hk
        have he : insertA ((k0, v0) :: t) k0 v = (k0, v) :: t := by
          simp [insertA]
        rw [he]
        unfold keysNodup
        simp only [List.map_cons, List.nodup_cons]
        exact h
      · unfold keysNodup
        simp only [insertA, if_neg hk, List.map_cons, List.nodup_cons]
        refine ⟨?_, ih h.2⟩
        intro hmem
        rcases (mem_keys_insertA t k k0 v).mp hmem with heq | hmem2
        · exact hk heq
        · exact h.1 hmem2

theorem keysNodup_eraseA {α : Type} (l : List (String × α)) (k : String)
    (h : keysNodup l) : keysNodup (eraseA l k) := by
  exact h.sublist (keys_eraseA_sublist l k)

theorem keysNodup_modifyA {α : Type} (l : List (String × α)) (k : String) (f : α → α)
    (h : keysNodup l) : keysNodup (modifyA l k f) := by
  unfold keysNodup
  rw [keys_modifyA]
  exact h

theorem length_insertA_le {α : Type} (l : List (String × α)) (k : String) (v : α) :
    (insertA l k v).length ≤ l.length + 1 := by
  induction l with
  | nil => simp [insertA]
  | cons hd t ih =>
      obtain ⟨k0, v0⟩ := hd
      by_cases hk : k0 = k
      · simp [insertA, hk]
      · simp only [insertA, if_neg hk, List.length_cons]
        omega

theorem length_eraseA_le {α : Type} (l : List (String × α)) (k : String) :
    (eraseA l k).length ≤ l.length := by
  induction l with
  | nil => simp [eraseA]
  | cons hd t ih =>
      obtain ⟨k0, v0⟩ := hd
      by_cases hk : k0 = k
      · simp only [eraseA, if_pos hk, List.length_cons]
        omega
      · simp only [eraseA, if_neg hk, List.length_cons]
        omega

theorem length_modifyA {α : Type} (l : List (String × α)) (k : String) (f : α → α) :
    (modifyA l k f).length = l.length := by
  induction l with
  | nil => simp [modifyA]
  | cons hd t ih =>
      obtain ⟨k0, v0⟩ := hd
      by_cases hk : k0 = k
      · simp [modifyA, hk]
      · simp [modifyA, hk, ih]

theorem lookupA_of_not_mem_keys {α : Type} (l : List (String × α)) (a : String)
    (h : a ∉ l.map Prod.fst) : lookupA l a = none := by
  induction l with
  | nil => simp [lookupA]
  | cons hd t ih =>
      obtain ⟨k0, v0⟩ := hd
      simp only [List.map_cons, List.mem_cons, not_or] at h
      have hne : ¬k0 = a := fun he => h.1 he.symm
      simp only [lookupA, if_neg hne, ih h.2]

theorem lookupA_eraseA_self {α : Type} (l : List (String × α)) (k : String)
    (h : keysNodup l) : lookupA (eraseA l k) k = none := by
  induction l with
  | nil => simp [eraseA, lookupA]
  | cons hd t ih =>
      obtain ⟨k0, v0⟩ := hd
      unfold keysNodup at h
      simp only [List.map_cons, List.nodup_cons] at h
      by_cases hk : k0 = k
      · subst hk
        simp only [eraseA, if_pos rfl]
        exact lookupA_of_not_mem_keys t k0 h.1
      · simp only [eraseA, if_neg hk, lookupA, if_neg hk]
        exact ih h.2

theorem lookupA_modifyA_self {α : Type} (l : List (String × α)) (k : String) (f : α → α) :
    lookupA (modifyA l k f) k = (lookupA l k).map f := by
  induction l with
  | nil => simp [modifyA, lookupA]
  | cons hd t ih =>
      obtain ⟨k0, v0⟩ := hd
      by_cases hk : k0 = k
      · simp [modifyA, hk, lookupA]
      · simp [modifyA, hk, lookupA, ih]

theorem pyRound_bounds (q : ℚ) : ⌊q⌋ ≤ pyRound q ∧ pyRound q ≤ ⌊q⌋ + 1 := by
  simp only [pyRound]
  split_ifs <;> omega

theorem close_partial_of_none (m : Manager) (sym : String) (ep es : ℚ) (pc : ℕ)
    (env : GatewayEnv) :
    (close_partial_position m sym ep es pc env).2.1 = none →
      close_partial_position m sym ep es pc env = (m, none, []) := by
  unfold close_partial_position
  rcases lookupA m.openPositions sym with _ | pos
  · exact fun _ => rfl
  · rcases lookupA env.remote sym with _ | rp
    · exact fun _ => rfl
    · by_cases hz : rp.size * pc / 100 = 0
      · simp [hz]
      · by_cases hok : env.partialOrderOk
        · simp [hz, hok]
        · simp [hz, hok]

theorem close_partial_of_not_ok (m : Manager) (sym : String) (ep es : ℚ) (env : GatewayEnv)
    (h : partialCloseOk sym env = false) :
    close_partial_position m sym ep es 50 env = (m, none, []) := by
  rcases hl : lookupA m.openPositions sym with _ | pos
  · unfold close_partial_position
    rw [hl]
  · rcases hr : lookupA env.remote sym with _ | rp
    · unfold close_partial_position
      rw [hl, hr]
    · by_cases hz : rp.size * 50 / 100 = 0
      · unfold close_partial_position
        rw [hl, hr]
        simp [hz]
      · by_cases hok : env.partialOrderOk
        · exfalso
          unfold partialCloseOk at h
          rw [hr] at h
          simp [hz, hok] at h
        · unfold close_partial_position
          rw [hl, hr]
          simp [hz, hok]

theorem close_partial_success_shape (m : Manager) (sym : String) (ep es : ℚ) (pc : ℕ)
    (env : GatewayEnv) (h : (close_partial_position m sym ep es pc env).2.1 ≠ none) :
    (∃ rp, lookupA env.remote sym = some rp ∧
        (close_partial_position m sym ep es pc env).1.openPositions =
          modifyA m.openPositions sym (fun p => { p with size := rp.size - rp.size * pc / 100 })) ∧
    countPartialOrders (close_partial_position m sym ep es pc env).2.2 = 1 := by
  rcases hl : lookupA m.openPositions sym with _ | pos
  · exfalso
    apply h
    unfold close_partial_position
    rw [hl]
  · rcases hr : lookupA env.remote sym with _ | rp
    · exfalso
      apply h
      unfold close_partial_position
      rw [hl, hr]
    · by_cases hz : rp.size * pc / 100 = 0
      · exfalso
        apply h
        unfold close_partial_position
        rw [hl, hr]
        simp [hz]
      · by_cases hok : env.partialOrderOk
        · constructor
          · refine ⟨rp, rfl, ?_⟩
            unfold close_partial_position
            rw [hl, hr]
            simp [hz, hok]
          · unfold close_partial_position
            rw [hl, hr]
            simp [hz, hok, countPartialOrders]
        · exfalso
          apply h
          unfold close_partial_position
          rw [hl, hr]
          simp [hz, hok]

theorem close_position_shape (m : Manager) (sym : String) (ep es : ℚ) (env : GatewayEnv) :
    ((close_position m sym ep es env).1.openPositions = m.openPositions ∨
      (close_position m sym ep es env).1.openPositions = eraseA m.openPositions sym) ∧
    countPartialOrders (close_position m sym ep es env).2.2 = 0 := by
  unfold close_position
  rcases lookupA m.openPositions sym with _ | pos
  · exact ⟨Or.inl rfl, rfl⟩
  · rcases lookupA env.remote sym with _ | rp
    · exact ⟨Or.inr rfl, rfl⟩
    · by_cases hok : env.closeOrderOk
      · refine ⟨Or.inr ?_, ?_⟩
        · simp [hok]
        · simp [hok, countPartialOrders]
      · exact ⟨Or.inl (by simp [hok]), by simp [hok, countPartialOrders]⟩

theorem set_stop_loss_shape (m : Manager) (sym : String) (env : GatewayEnv) :
    ((set_stop_loss_at_entry m sym env).1.openPositions = m.openPositions ∨
      (set_stop_loss_at_entry m sym env).1.openPositions =
        modifyA m.openPositions sym (fun p => { p with stopLossSet := true })) ∧
    countPartialOrders (set_stop_loss_at_entry m sym env).2.2 = 0 := by
  unfold set_stop_loss_at_entry
  rcases lookupA m.openPositions sym with _ | pos
  · exact ⟨Or.inl rfl, rfl⟩
  · rcases lookupA env.remote sym with _ | rp
    · exact ⟨Or.inl rfl, rfl⟩
    · by_cases hok : env.stopArmOk
      · exact ⟨Or.inr (by simp [hok]), by simp [hok, countPartialOrders]⟩
      · exact ⟨Or.inl (by simp [hok]), by simp [hok, countPartialOrders]⟩

theorem countPartialOrders_append (a b : List Order) :
    countPartialOrders (a ++ b) = countPartialOrders a + countPartialOrders b := by
  unfold countPartialOrders
  rw [List.filter_append, List.length_append]

/-- C7: the manual P&L computation satisfies
`pnl = sizeContracts * priceDiff * quantoMultiplier` with `priceDiff` signed
by side, and `roi = pnl / (sizeContracts * entryPrice * quantoMultiplier /
leverage) * 100`; for a long with entry 100, exit 110, size 1000, quanto
0.0001, leverage 20 the pnl is exactly 1 USD and the ROI exactly 200%, both
in `TradeAnalytics._calculate_pnl` and in
`GateIOTradingManager.calculate_unrealized_pnl`. -/
theorem pnl_formula_and_round_trip :
    (∀ td : TradeData, td.realPnlUsd = none →
        (calculate_pnl td).pnlUsd =
          (td.size : ℚ) *
            (match td.side with
             | .long => td.exitPrice - td.entryPrice
             | .short => td.entryPrice - td.exitPrice) * td.quantoMultiplier)
  ∧ (∀ td : TradeData,
        0 < (td.size : ℚ) * td.entryPrice * td.quantoMultiplier / td.leverage →
        (calculate_pnl td).pnlPercent =
          (calculate_pnl td).pnlUsd /
            ((td.size : ℚ) * td.entryPrice * td.quantoMultiplier / td.leverage) * 100)
  ∧ (calculate_pnl tdRoundTrip).pnlUsd = 1
  ∧ (calculate_pnl tdRoundTrip).pnlPercent = 200
  ∧ calculate_unrealized_pnl mgrA "A" 110 = ⟨1, 200, 100⟩ := by
  refine ⟨?_, ?_, by norm_num [calculate_pnl, tdRoundTrip],
    by norm_num [calculate_pnl, tdRoundTrip],
    by norm_num [calculate_unrealized_pnl, mgrA, sampleManager, samplePosition, lookupA,
      PnlTriple.mk.injEq]⟩
  · intro td h
    simp [calculate_pnl, h]
  · intro td h
    simp [calculate_pnl, h]

theorem pnl_formula_and_round_trip_witness :
    tdRoundTrip.realPnlUsd = none ∧
    0 < (tdRoundTrip.size : ℚ) * tdRoundTrip.entryPrice * tdRoundTrip.quantoMultiplier /
      tdRoundTrip.leverage ∧
    (calculate_pnl tdRoundTrip).pnlUsd =
      (tdRoundTrip.size : ℚ) *
        (match tdRoundTrip.side with
         | .long => tdRoundTrip.exitPrice - tdRoundTrip.entryPrice
         | .short => tdRoundTrip.entryPrice - tdRoundTrip.exitPrice) *
        tdRoundTrip.quantoMultiplier ∧
    (calculate_pnl tdRoundTrip).pnlPercent =
      (calculate_pnl tdRoundTrip).pnlUsd /
        ((tdRoundTrip.size : ℚ) * tdRoundTrip.entryPrice * tdRoundTrip.quantoMultiplier /
          tdRoundTrip.leverage) * 100 :=
  ⟨rfl, by norm_num [tdRoundTrip], pnl_formula_and_round_trip.1 tdRoundTrip rfl,
    pnl_formula_and_round_trip.2.1 tdRoundTrip (by norm_num [tdRoundTrip])⟩

/-- C4 (amended): on the quanto path `calculate_position_size` computes
`quantity = marginUsd * leverage / (price * quantoMultiplier)`, clamps it up
to the exchange minimum order size when below it, and then rounds it to the
nearest integer with Python's half-to-even `round` — not `floor`; the result
therefore lies between the floor of the clamped quantity and that floor
plus one. -/
theorem position_size_rounds_half_even (m : Manager) (price quanto minSize : ℚ)
    (hp : 0 < price) (hq : 0 < quanto) (hm : 0 < minSize)
    (hpos : 0 < m.positionSizeUsd * m.leverage) :
    calculate_position_size m price (some ⟨quanto, some minSize⟩)
        = pyRound (max (m.positionSizeUsd * m.leverage / (price * quanto)) minSize)
      ∧ ⌊max (m.positionSizeUsd * m.leverage / (price * quanto)) minSize⌋
          ≤ calculate_position_size m price (some ⟨quanto, some minSize⟩)
      ∧ calculate_position_size m price (some ⟨quanto, some minSize⟩)
          ≤ ⌊max (m.positionSizeUsd * m.leverage / (price * quanto)) minSize⌋ + 1 := by
  have hq0 : ¬quanto = 0 := ne_of_gt hq
  have hm0 : ¬minSize = 0 := ne_of_gt hm
  have hqty : 0 < m.positionSizeUsd * m.leverage / (price * quanto) :=
    div_pos hpos (mul_pos hp hq)
  have key : calculate_position_size m price (some ⟨quanto, some minSize⟩)
      = pyRound (max (m.positionSizeUsd * m.leverage / (price * quanto)) minSize) := by
    unfold calculate_position_size
    simp only [if_neg hq0, if_neg hm0, abs_of_pos hqty]
    by_cases hlt : m.positionSizeUsd * m.leverage / (price * quanto) < minSize
    · rw [if_pos hlt, if_pos hqty, max_eq_right hlt.le]
    · rw [if_neg hlt, max_eq_left (not_lt.mp hlt)]
  exact ⟨key, key ▸ (pyRound_bounds _).1, key ▸ (pyRound_bounds _).2⟩

/-- C4 counterexample: with margin 2, leverage 3, price 4, quanto 1 and
minimum size 1 the quantity is 1.5; the code returns `round(1.5) = 2`
while the claimed `floor` is 1. -/
theorem position_size_not_floor :
    calculate_position_size mgrHalf 4 (some ⟨1, some 1⟩) = 2 ∧
    ⌊mgrHalf.positionSizeUsd * mgrHalf.leverage / ((4 : ℚ) * 1)⌋ = 1 := by
  constructor
  · have habs : |(3 : ℚ) / 2| = 3 / 2 := abs_of_pos (by norm_num)
    have hfl : ⌊(3 : ℚ) / 2⌋ = 1 := by norm_num
    norm_num [calculate_position_size, mgrHalf, sampleManager, pyRound, habs, hfl]
  · norm_num [mgrHalf, sampleManager]

theorem position_size_rounds_half_even_witness :
    (0 : ℚ) < 4 ∧ (0 : ℚ) < 1 ∧ 0 < mgrHalf.positionSizeUsd * mgrHalf.leverage ∧
    (calculate_position_size mgrHalf 4 (some ⟨1, some 1⟩)
        = pyRound (max (mgrHalf.positionSizeUsd * mgrHalf.leverage / ((4 : ℚ) * 1)) 1)
      ∧ ⌊max (mgrHalf.positionSizeUsd * mgrHalf.leverage / ((4 : ℚ) * 1)) 1⌋
          ≤ calculate_position_size mgrHalf 4 (some ⟨1, some 1⟩)
      ∧ calculate_position_size mgrHalf 4 (some ⟨1, some 1⟩)
          ≤ ⌊max (mgrHalf.positionSizeUsd * mgrHalf.leverage / ((4 : ℚ) * 1)) 1⌋ + 1) :=
  ⟨by norm_num, by norm_num, by norm_num [mgrHalf, sampleManager],
    position_size_rounds_half_even mgrHalf 4 1 1 (by norm_num) (by norm_num) (by norm_num)
      (by norm_num [mgrHalf, sampleManager])⟩

/-- C10: closing a symbol that is tracked locally but absent from the
force-refreshed remote snapshot deletes the local record, submits no order,
logs no trade (the trades list of the result equals the old one), and
returns failure (`None`). -/
theorem close_vanished_position_cleanup (m : Manager) (sym : String)
    (exitPrice exitSpread : ℚ) (env : GatewayEnv)
    (h1 : (lookupA m.openPositions sym).isSome = true)
    (h2 : lookupA env.remote sym = none) :
    close_position m sym exitPrice exitSpread env
      = ({ m with openPositions := eraseA m.openPositions sym }, none, []) := by
  rcases hl : lookupA m.openPositions sym with _ | pos
  · rw [hl] at h1
    cases h1
  · unfold close_position
    rw [hl, h2]

theorem close_vanished_position_cleanup_witness :
    (lookupA mgrA.openPositions "A").isSome = true ∧
    lookupA envEmptyRemote.remote "A" = none ∧
    close_position mgrA "A" 110 1 envEmptyRemote
      = ({ mgrA with openPositions := eraseA mgrA.openPositions "A" }, none, []) :=
  ⟨by decide, by decide,
    close_vanished_position_cleanup mgrA "A" 110 1 envEmptyRemote (by decide) (by decide)⟩

theorem foldl_insertA_lookup (remote : List (String × RemotePos)) (now : ℚ) :
    ∀ (base : List (String × Position)) (sym : String), keysNodup remote →
      lookupA (remote.foldl (fun acc kv => insertA acc kv.1 (adoptPosition kv.2 now)) base) sym
        = match lookupA remote sym with
          | some rp => some (adoptPosition rp now)
          | none => lookupA base sym := by
  induction remote with
  | nil =>
      intro base sym _
      simp [lookupA]
  | cons hd t ih =>
      intro base sym hnd
      obtain ⟨k0, rp0⟩ := hd
      have hnd2 : keysNodup t := by
        unfold keysNodup at hnd ⊢
        simp only [List.map_cons, List.nodup_cons] at hnd
        exact hnd.2
      simp only [List.foldl_cons]
      rw [ih (insertA base k0 (adoptPosition rp0 now)) sym hnd2]
      by_cases hk : k0 = sym
      · subst hk
        have hnone : lookupA t k0 = none := by
          apply lookupA_of_not_mem_keys
          unfold keysNodup at hnd
          simp only [List.map_cons, List.nodup_cons] at hnd
          exact hnd.1
        rw [hnone]
        simp [lookupA, lookupA_insertA_self]
      · have hcons : lookupA ((k0, rp0) :: t) sym = lookupA t sym := by
          simp [lookupA, hk]
        rw [hcons]
        rcases ht : lookupA t sym with _ | rp
        · simp only []
          exact lookupA_insertA_ne base k0 sym _ hk
        · rfl

/-- C3 (amended): reconciliation writes every position of the remote
snapshot into the ledger — adopting it with `entrySpread = 0`,
`entryTime = now`, the default quanto, and the remote side and size, even
when the symbol was already tracked locally (so the tracked size is
corrected to the remote value but local entry data is lost) — and it does
NOT remove local positions absent from the snapshot: their records are left
untouched (they are only cleaned up later by `close_position`'s remote
check). -/
theorem sync_adopts_remote_without_removal (m : Manager)
    (remote : List (String × RemotePos)) (now : ℚ) (hnd : keysNodup remote) (sym : String) :
    lookupA (sync_positions_from_gateio m remote now).openPositions sym
      = match lookupA remote sym with
        | some rp => some (adoptPosition rp now)
        | none => lookupA m.openPositions sym := by
  unfold sync_positions_from_gateio
  exact foldl_insertA_lookup remote now m.openPositions sym hnd

/-- C3 counterexample: a locally tracked position (`A`) that is absent from
the remote snapshot (here: the empty snapshot) is NOT removed by
`sync_positions_from_gateio`, contradicting the claim that every such local
position is removed. -/
theorem sync_keeps_vanished_local :
    lookupA (sync_positions_from_gateio mgrA [] 5).openPositions "A" = some samplePosition := by
  simp [sync_positions_from_gateio, mgrA, sampleManager, lookupA]

theorem sync_adopts_remote_without_removal_witness :
    keysNodup remoteTwo ∧
    (lookupA (sync_positions_from_gateio mgrMax1 remoteTwo 5).openPositions "A"
      = match lookupA remoteTwo "A" with
        | some rp => some (adoptPosition rp 5)
        | none => lookupA mgrMax1.openPositions "A") :=
  ⟨by decide, sync_adopts_remote_without_removal mgrMax1 remoteTwo 5 (by decide) "A"⟩

theorem close_partial_length (m : Manager) (sym : String) (ep es : ℚ) (pc : ℕ)
    (env : GatewayEnv) :
    (close_partial_position m sym ep es pc env).1.openPositions.length
      = m.openPositions.length := by
  rcases hn : (close_partial_position m sym ep es pc env).2.1 with _ | tr
  · rw [close_partial_of_none m sym ep es pc env hn]
  · have hne : (close_partial_position m sym ep es pc env).2.1 ≠ none := by
      rw [hn]
      exact Option.some_ne_none tr
    obtain ⟨⟨rp, -, hshape⟩, -⟩ := close_partial_success_shape m sym ep es pc env hne
    rw [hshape, length_modifyA]

/-- C2 (amended): the `max_positions` bound is preserved by `open_position`
(which checks `can_open_position` under the lock before inserting), by
`close_position` (which only removes or keeps records), and by
`close_partial_position` (which only rewrites a record in place) — but NOT
by `sync_positions_from_gateio`, which adopts every remote position without
consulting `max_positions` (see the counterexample). -/
theorem position_count_bounded_by_ops :
    (∀ (m : Manager) (opp : SpreadOpportunity) (env : GatewayEnv),
        m.openPositions.length ≤ m.maxPositions →
        (open_position m opp env).1.openPositions.length ≤ m.maxPositions)
  ∧ (∀ (m : Manager) (sym : String) (ep es : ℚ) (env : GatewayEnv),
        m.openPositions.length ≤ m.maxPositions →
        (close_position m sym ep es env).1.openPositions.length ≤ m.maxPositions)
  ∧ (∀ (m : Manager) (sym : String) (ep es : ℚ) (pc : ℕ) (env : GatewayEnv),
        m.openPositions.length ≤ m.maxPositions →
        (close_partial_position m sym ep es pc env).1.openPositions.length ≤ m.maxPositions) := by
  refine ⟨?_, ?_, ?_⟩
  · intro m opp env h
    unfold open_position
    by_cases hcan : m.openPositions.length < m.maxPositions
    · rw [if_pos hcan]
      rcases lookupA env.remote opp.symbol with _ | rp
      · by_cases hsz : calculate_position_size m opp.lastPrice env.contract = 0
        · simpa [hsz] using h
        · by_cases hok : env.openOrderOk = true
          · simp only [if_neg hsz, hok, if_true]
            exact le_trans (length_insertA_le _ _ _) hcan
          · simpa [hsz, hok] using h
      · exact h
    · rw [if_neg hcan]
      exact h
  · intro m sym ep es env h
    rcases (close_position_shape m sym ep es env).1 with h1 | h1
    · rw [h1]
      exact h
    · rw [h1]
      exact le_trans (length_eraseA_le _ _) h
  · intro m sym ep es pc env h
    rw [close_partial_length m sym ep es pc env]
    exact h

/-- C2 counterexample: with `max_positions = 1` and a two-position remote
snapshot, `sync_positions_from_gateio` leaves the ledger with 2 tracked
positions, exceeding the bound that held before the operation. -/
theorem sync_exceeds_max :
    mgrMax1.openPositions.length ≤ mgrMax1.maxPositions ∧
    mgrMax1.maxPositions < (sync_positions_from_gateio mgrMax1 remoteTwo 0).openPositions.length := by
  constructor
  · decide
  · decide

theorem position_count_bounded_by_ops_witness :
    mgrA.openPositions.length ≤ mgrA.maxPositions ∧
    (open_position mgrA oppLongA envRemoteA).1.openPositions.length ≤ mgrA.maxPositions ∧
    (close_position mgrA "A" 110 1 envRemoteA).1.openPositions.length ≤ mgrA.maxPositions ∧
    (close_partial_position mgrA "A" 110 1 50 envRemoteA).1.openPositions.length
      ≤ mgrA.maxPositions :=
  ⟨by decide, position_count_bounded_by_ops.1 mgrA oppLongA envRemoteA (by decide),
    position_count_bounded_by_ops.2.1 mgrA "A" 110 1 envRemoteA (by decide),
    position_count_bounded_by_ops.2.2 mgrA "A" 110 1 50 envRemoteA (by decide)⟩

/-- C1 (amended): the ledger never holds two simultaneous positions for the
same symbol — `open_position` preserves distinctness of the symbol keys
(assignment replaces the record) — and an open attempt whose symbol appears
in the force-refreshed remote snapshot is rejected with no state change.
However, `open_position` does not separately consult the local
`open_positions` map for the symbol (only for the count): a locally tracked
symbol absent from the remote snapshot is NOT rejected (see the
counterexample), its record being overwritten on success. -/
theorem open_position_checks :
    (∀ (m : Manager) (opp : SpreadOpportunity) (env : GatewayEnv),
        keysNodup m.openPositions → keysNodup (open_position m opp env).1.openPositions)
  ∧ (∀ (m : Manager) (opp : SpreadOpportunity) (env : GatewayEnv),
        (lookupA env.remote opp.symbol).isSome = true →
        open_position m opp env = (m, false, [])) := by
  constructor
  · intro m opp env h
    unfold open_position
    by_cases hcan : m.openPositions.length < m.maxPositions
    · rw [if_pos hcan]
      rcases lookupA env.remote opp.symbol with _ | rp
      · by_cases hsz : calculate_position_size m opp.lastPrice env.contract = 0
        · simpa [hsz] using h
        · by_cases hok : env.openOrderOk = true
          · simp only [if_neg hsz, hok, if_true]
            exact keysNodup_insertA _ _ _ h
          · simpa [hsz, hok] using h
      · exact h
    · rw [if_neg hcan]
      exact h
  · intro m opp env h
    unfold open_position
    rcases hr : lookupA env.remote opp.symbol with _ | rp
    · rw [hr] at h
      cases h
    · by_cases hcan : m.openPositions.length < m.maxPositions
      · rw [if_pos hcan]
      · rw [if_neg hcan]

theorem open_position_success (m : Manager) (opp : SpreadOpportunity) (env : GatewayEnv)
    (hcan : m.openPositions.length < m.maxPositions)
    (hr : lookupA env.remote opp.symbol = none)
    (hsz : ¬calculate_position_size m opp.lastPrice env.contract = 0)
    (hok : env.openOrderOk = true) :
    (open_position m opp env).2.1 = true := by
  unfold open_position
  rw [if_pos hcan, hr]
  simp [hsz, hok]

/-- C1 counterexample: symbol `A` is tracked locally but absent from the
force-refreshed remote snapshot; the claim says such an open attempt is
rejected by the local-map check, yet `open_position` succeeds (returns
`True`), because the code checks only the position count and the remote
snapshot. -/
theorem open_overwrites_local_position :
    (lookupA mgrA.openPositions "A").isSome = true ∧
    lookupA envEmptyRemote.remote "A" = none ∧
    mgrA.openPositions.length < mgrA.maxPositions ∧
    (open_position mgrA oppLongA envEmptyRemote).2.1 = true := by
  have hsz : ¬calculate_position_size mgrA oppLongA.lastPrice envEmptyRemote.contract = 0 := by
    have habs : |(4000 : ℚ)| = 4000 := abs_of_pos (by norm_num)
    have hfl : ⌊(4000 : ℚ)⌋ = 4000 := by norm_num
    norm_num [calculate_position_size, mgrA, sampleManager, envEmptyRemote, oppLongA, pyRound,
      habs, hfl]
  exact ⟨by decide, by decide, by decide,
    open_position_success mgrA oppLongA envEmptyRemote (by decide) (by decide) hsz (by decide)⟩

theorem open_position_checks_witness :
    keysNodup mgrA.openPositions ∧
    keysNodup (open_position mgrA oppLongA envEmptyRemote).1.openPositions ∧
    (lookupA envRemoteA.remote oppLongA.symbol).isSome = true ∧
    open_position mgrA oppLongA envRemoteA = (mgrA, false, []) :=
  ⟨by decide, open_position_checks.1 mgrA oppLongA envEmptyRemote (by decide), by decide,
    open_position_checks.2 mgrA oppLongA envRemoteA (by decide)⟩

/-- C5: the spread evaluation is direction-symmetric.  For positive prices,
evaluating (r, t) and (t, r) from the same detector state yields results of
swapped direction and equal spread magnitude (both emitting or both not);
when the reference exceeds the trade price the emitted spread is
`(r - t)/t * 100` with direction Long, in the opposite order
`(t - r)/r * 100` with direction Short; and equal prices emit nothing. -/
theorem spread_detection_symmetric (d : SpreadDetector) (sym : String) (r t now : ℚ)
    (hr : 0 < r) (ht : 0 < t) :
    ((detect_spread d sym r t now).2.map SpreadOpportunity.signalType
        = (detect_spread d sym t r now).2.map fun o => o.signalType.swap)
  ∧ ((detect_spread d sym r t now).2.map SpreadOpportunity.spreadPercent
        = (detect_spread d sym t r now).2.map SpreadOpportunity.spreadPercent)
  ∧ (t < r → ∀ o, (detect_spread d sym r t now).2 = some o →
        o.signalType = .long ∧ o.spreadPercent = (r - t) / t * 100)
  ∧ (r < t → ∀ o, (detect_spread d sym r t now).2 = some o →
        o.signalType = .short ∧ o.spreadPercent = (t - r) / r * 100)
  ∧ (detect_spread d sym r r now).2 = none := by
  have h1 : ¬(r ≤ 0 ∨ t ≤ 0) := by
    push_neg
    exact ⟨hr, ht⟩
  have h2 : ¬(t ≤ 0 ∨ r ≤ 0) := by
    push_neg
    exact ⟨ht, hr⟩
  have h3 : ¬(r ≤ 0 ∨ r ≤ 0) := by
    push_neg
    exact ⟨hr, hr⟩
  unfold detect_spread
  rw [if_neg h1, if_neg h2, if_neg h3]
  by_cases hcool : cooldownBlocked d sym now = true
  · rw [if_pos hcool, if_pos hcool, if_pos hcool]
    refine ⟨rfl, rfl, ?_, ?_, rfl⟩
    · intro _ o ho
      cases ho
    · intro _ o ho
      cases ho
  · rw [if_neg hcool, if_neg hcool, if_neg hcool]
    rcases lt_trichotomy r t with hlt | heq | hgt
    · by_cases hth : d.minThreshold ≤ (t - r) / r * 100
      · refine ⟨?_, ?_, ?_, ?_, ?_⟩ <;>
          simp [hlt, lt_asymm hlt, lt_irrefl, hth, Side.swap]
      · refine ⟨?_, ?_, ?_, ?_, ?_⟩ <;>
          simp [hlt, lt_asymm hlt, lt_irrefl, hth]
    · subst heq
      refine ⟨?_, ?_, ?_, ?_, ?_⟩ <;> simp [lt_irrefl]
    · by_cases hth : d.minThreshold ≤ (r - t) / t * 100
      · refine ⟨?_, ?_, ?_, ?_, ?_⟩ <;>
          simp [hgt, lt_asymm hgt, lt_irrefl, hth, Side.swap]
      · refine ⟨?_, ?_, ?_, ?_, ?_⟩ <;>
          simp [hgt, lt_asymm hgt, lt_irrefl, hth]

theorem spread_detection_symmetric_witness :
    (0 : ℚ) < 107 ∧ (0 : ℚ) < 100 ∧
    ((detect_spread detector7 "X" 107 100 0).2.map SpreadOpportunity.signalType
        = (detect_spread detector7 "X" 100 107 0).2.map fun o => o.signalType.swap) ∧
    ((detect_spread detector7 "X" 107 100 0).2.map SpreadOpportunity.spreadPercent
        = (detect_spread detector7 "X" 100 107 0).2.map SpreadOpportunity.spreadPercent) :=
  ⟨by norm_num, by norm_num,
    (spread_detection_symmetric detector7 "X" 107 100 0 (by norm_num) (by norm_num)).1,
    (spread_detection_symmetric detector7 "X" 107 100 0 (by norm_num) (by norm_num)).2.1⟩

/-- C6: `detect_spread` emits an opportunity exactly when both prices are
positive, the cooldown is not blocking (no emission for that symbol less
than 60 seconds before), the two prices differ (equal prices compute no
spread), and the directional spread reaches `min_threshold`; non-positive
prices are silently rejected (the function totally evaluates to no
emission).  Scenario: with threshold 7%, reference 107, trade 100, a fresh
detector emits a Long opportunity with spread exactly 7%; an immediate
repeat 30 seconds later (inside the 60 s cooldown) emits nothing; a repeat
at 60 seconds (cooldown elapsed) emits again. -/
theorem detect_spread_emission_characterized :
    (∀ (d : SpreadDetector) (sym : String) (markPrice lastPrice now : ℚ),
        ((detect_spread d sym markPrice lastPrice now).2.isSome = true ↔
          (0 < markPrice ∧ 0 < lastPrice ∧ cooldownBlocked d sym now = false ∧
            markPrice ≠ lastPrice ∧ d.minThreshold ≤ dirSpread markPrice lastPrice)))
  ∧ (detect_spread detector7 "X" 107 100 0).2 = some ⟨"X", 107, 100, 7, .long, 0⟩
  ∧ (detect_spread (detect_spread detector7 "X" 107 100 0).1 "X" 107 100 30).2 = none
  ∧ (detect_spread (detect_spread detector7 "X" 107 100 0).1 "X" 107 100 60).2
      = some ⟨"X", 107, 100, 7, .long, 60⟩ := by
  refine ⟨?_, ?_, ?_, ?_⟩
  · intro d sym mark last now
    unfold detect_spread
    by_cases hpos : mark ≤ 0 ∨ last ≤ 0
    · rw [if_pos hpos]
      simp only [Option.isSome_none, Bool.false_eq_true, false_iff]
      rintro ⟨hm, hl, -, -, -⟩
      rcases hpos with h | h
      · exact absurd hm (not_lt.mpr h)
      · exact absurd hl (not_lt.mpr h)
    · rw [if_neg hpos]
      by_cases hcool : cooldownBlocked d sym now = true
      · rw [if_pos hcool]
        simp only [Option.isSome_none, Bool.false_eq_true, false_iff]
        rintro ⟨-, -, hc, -, -⟩
        rw [hcool] at hc
        cases hc
      · rw [if_neg hcool]
        have hcf : cooldownBlocked d sym now = false := by
          simpa using hcool
        push_neg at hpos
        rcases lt_trichotomy last mark with hgt | heq | hlt
        · rw [if_pos hgt]
          unfold dirSpread
          rw [if_pos hgt]
          by_cases hth : d.minThreshold ≤ (mark - last) / last * 100
          · rw [if_pos hth]
            simp only [Option.isSome_some, true_iff]
            exact ⟨hpos.1, hpos.2, hcf, ne_of_gt hgt, hth⟩
          · rw [if_neg hth]
            simp only [Option.isSome_none, Bool.false_eq_true, false_iff]
            rintro ⟨-, -, -, -, hth3⟩
            exact hth hth3
        · rw [if_neg (heq ▸ lt_irrefl last), if_neg (heq ▸ lt_irrefl last)]
          simp only [Option.isSome_none, Bool.false_eq_true, false_iff]
          rintro ⟨-, -, -, hne, -⟩
          exact hne heq.symm
        · rw [if_neg (lt_asymm hlt), if_pos hlt]
          unfold dirSpread
          rw [if_neg (lt_asymm hlt)]
          by_cases hth : d.minThreshold ≤ (last - mark) / mark * 100
          · rw [if_pos hth]
            simp only [Option.isSome_some, true_iff]
            exact ⟨hpos.1, hpos.2, hcf, ne_of_lt hlt, hth⟩
          · rw [if_neg hth]
            simp only [Option.isSome_none, Bool.false_eq_true, false_iff]
            rintro ⟨-, -, -, -, hth3⟩
            exact hth hth3
  · norm_num [detect_spread, detector7, cooldownBlocked, lookupA, alertCooldown,
      SpreadOpportunity.mk.injEq]
  · norm_num [detect_spread, detector7, cooldownBlocked, lookupA, insertA, alertCooldown]
  · norm_num [detect_spread, detector7, cooldownBlocked, lookupA, insertA, alertCooldown,
      SpreadOpportunity.mk.injEq]

theorem check_exit_at_zero_spread (m : Manager) (sym : String) (last tp : ℚ)
    (env : GatewayEnv) (pos : Position)
    (hl : lookupA m.openPositions sym = some pos)
    (hth : 0 ≤ m.exitSpreadThreshold)
    (hntp : ¬(tp ≤ (calculate_unrealized_pnl m sym last).roiPct ∧ pos.partialClosed = false ∧
        partialCloseOk sym env = true)) :
    check_exit_conditions m sym 0 last tp env = close_position m sym last 0 env := by
  simp only [check_exit_conditions, hl]
  by_cases hc : tp ≤ (calculate_unrealized_pnl m sym last).roiPct ∧ pos.partialClosed = false
  · rw [if_pos hc]
    have hpc : partialCloseOk sym env = false := by
      by_contra hb
      exact hntp ⟨hc.1, hc.2, by simpa using hb⟩
    have heq := close_partial_of_not_ok m sym last 0 env hpc
    simp only [heq]
    rw [if_pos hth]
    simp
  · rw [if_neg hc, if_pos hth]

/-- C9 (amended): on a tick whose mark/last relationship has flipped (or
become equal) relative to the position's side — mark ≤ last for a Long
position, last ≤ mark for a Short position — the effective current spread
is forced to 0 and — since 0 is at most any nonnegative exit threshold —
the tick results in exactly the full-close call at spread 0, UNLESS the
take-profit rule fires successfully first on that same tick (ROI at
threshold, `partial_closed` unset, and the partial close succeeding), in
which case only the partial close happens and no full close is attempted
on that tick (see the counterexample). -/
theorem reversal_forces_exit_unless_take_profit (m : Manager) (sym : String)
    (mark last tp : ℚ) (env : GatewayEnv) (pos : Position)
    (hl : lookupA m.openPositions sym = some pos)
    (hrev : (pos.side = .long ∧ mark ≤ last) ∨ (pos.side = .short ∧ last ≤ mark))
    (hm : 0 < mark) (hlast : 0 < last)
    (hth : 0 ≤ m.exitSpreadThreshold)
    (hntp : ¬(tp ≤ (calculate_unrealized_pnl m sym last).roiPct ∧ pos.partialClosed = false ∧
        partialCloseOk sym env = true)) :
    on_ticker_exit_check m sym mark last tp env = close_position m sym last 0 env := by
  have hg : ¬(mark ≤ 0 ∨ last ≤ 0) := by
    push_neg
    exact ⟨hm, hlast⟩
  rcases hrev with ⟨hside, hr⟩ | ⟨hside, hr⟩
  · have hnlt : ¬last < mark := not_lt.mpr hr
    simp only [on_ticker_exit_check, hl, hside, if_neg hg, if_neg hnlt]
    exact check_exit_at_zero_spread m sym last tp env pos hl hth hntp
  · have hnlt : ¬mark < last := not_lt.mpr hr
    simp only [on_ticker_exit_check, hl, hside, if_neg hg, if_neg hnlt]
    exact check_exit_at_zero_spread m sym last tp env pos hl hth hntp

theorem reversal_forces_exit_unless_take_profit_witness :
    (lookupA mgrA.openPositions "A" = some samplePosition ∧
      (samplePosition.side = .long ∧ (109 : ℚ) ≤ 110) ∧
      (0 : ℚ) < 109 ∧ (0 : ℚ) < 110 ∧ 0 ≤ mgrA.exitSpreadThreshold ∧
      on_ticker_exit_check mgrA "A" 109 110 300 envRemoteA
        = close_position mgrA "A" 110 0 envRemoteA) ∧
    (lookupA mgrShort.openPositions "A" = some samplePositionShort ∧
      (samplePositionShort.side = .short ∧ (109 : ℚ) ≤ 110) ∧
      (0 : ℚ) < 110 ∧ (0 : ℚ) < 109 ∧ 0 ≤ mgrShort.exitSpreadThreshold ∧
      on_ticker_exit_check mgrShort "A" 110 109 300 envRemoteA
        = close_position mgrShort "A" 109 0 envRemoteA) :=
  ⟨⟨by simp [mgrA, sampleManager, lookupA], ⟨rfl, by norm_num⟩, by norm_num, by norm_num,
    by norm_num [mgrA, sampleManager],
    reversal_forces_exit_unless_take_profit mgrA "A" 109 110 300 envRemoteA samplePosition
      (by simp [mgrA, sampleManager, lookupA]) (Or.inl ⟨rfl, by norm_num⟩) (by norm_num)
      (by norm_num) (by norm_num [mgrA, sampleManager])
      (by
        intro hcontra
        have hroi : (calculate_unrealized_pnl mgrA "A" 110).roiPct = 200 := by
          norm_num [calculate_unrealized_pnl, mgrA, sampleManager, samplePosition, lookupA]
        rw [hroi] at hcontra
        norm_num at hcontra)⟩,
   ⟨by simp [mgrShort, sampleManager, lookupA], ⟨rfl, by norm_num⟩, by norm_num, by norm_num,
    by norm_num [mgrShort, sampleManager],
    reversal_forces_exit_unless_take_profit mgrShort "A" 110 109 300 envRemoteA
      samplePositionShort (by simp [mgrShort, sampleManager, lookupA])
      (Or.inr ⟨rfl, by norm_num⟩) (by norm_num) (by norm_num)
      (by norm_num [mgrShort, sampleManager])
      (by
        intro hcontra
        have hroi : (calculate_unrealized_pnl mgrShort "A" 109).roiPct = -180 := by
          norm_num [calculate_unrealized_pnl, mgrShort, sampleManager, samplePositionShort,
            samplePosition, lookupA]
        rw [hroi] at hcontra
        norm_num at hcontra)⟩⟩

/-- C9 counterexample: a Long position (entry 100, ROI 200% at last 110)
sees the mark (109) flip below the last price (110) — a reversal — with a
positive exit threshold (2%), yet no full close is triggered on that tick:
the take-profit branch fires first, closes 50% and returns, leaving the
position tracked and emitting no `t-close` order. -/
theorem reversal_tick_takes_profit_first :
    samplePosition.side = .long ∧ (109 : ℚ) < 110 ∧ 0 < mgrA.exitSpreadThreshold ∧
    (lookupA (on_ticker_exit_check mgrA "A" 109 110 50 envRemoteA).1.openPositions "A").isSome
      = true ∧
    ((on_ticker_exit_check mgrA "A" 109 110 50 envRemoteA).2.2.filter
        (fun o => o.text = "t-close")).length = 0 := by
  refine ⟨rfl, by norm_num, by norm_num [mgrA, sampleManager], ?_, ?_⟩ <;>
    norm_num [on_ticker_exit_check, check_exit_conditions, close_partial_position,
      set_stop_loss_at_entry, calculate_unrealized_pnl, calculate_pnl, mgrA, sampleManager,
      samplePosition, envRemoteA, envEmptyRemote, lookupA, modifyA]
  constructor <;> decide

theorem partialDone_modify_flag (l : List (String × Position)) (sym : String) :
    ∀ p, lookupA (modifyA l sym (fun q => { q with partialClosed := true })) sym = some p →
      p.partialClosed = true := by
  intro p hp
  rw [lookupA_modifyA_self] at hp
  rcases hq : lookupA l sym with _ | q
  · rw [hq] at hp
    cases hp
  · rw [hq] at hp
    have hpq := Option.some.inj hp
    rw [← hpq]

theorem partialDone_modify_stop (l : List (String × Position)) (sym : String)
    (h : ∀ p, lookupA l sym = some p → p.partialClosed = true) :
    ∀ p, lookupA (modifyA l sym (fun q => { q with stopLossSet := true })) sym = some p →
      p.partialClosed = true := by
  intro p hp
  rw [lookupA_modifyA_self] at hp
  rcases hq : lookupA l sym with _ | q
  · rw [hq] at hp
    cases hp
  · rw [hq] at hp
    have hpq := Option.some.inj hp
    rw [← hpq]
    exact h q hq

theorem partialDone_close_position (m : Manager) (sym : String) (ep es : ℚ)
    (env : GatewayEnv) (hnd : keysNodup m.openPositions) (h : PartialDone m sym) :
    PartialDone (close_position m sym ep es env).1 sym := by
  rcases (close_position_shape m sym ep es env).1 with h1 | h1
  · intro p hp
    rw [h1] at hp
    exact h p hp
  · intro p hp
    rw [h1, lookupA_eraseA_self _ _ hnd] at hp
    cases hp

theorem check_exit_step_facts (m : Manager) (sym : String) (cs ep tp : ℚ) (env : GatewayEnv)
    (hnd : keysNodup m.openPositions) :
    keysNodup (check_exit_conditions m sym cs ep tp env).1.openPositions ∧
    countPartialOrders (check_exit_conditions m sym cs ep tp env).2.2 ≤ 1 ∧
    (PartialDone m sym →
      countPartialOrders (check_exit_conditions m sym cs ep tp env).2.2 = 0 ∧
      PartialDone (check_exit_conditions m sym cs ep tp env).1 sym) ∧
    (1 ≤ countPartialOrders (check_exit_conditions m sym cs ep tp env).2.2 →
      PartialDone (check_exit_conditions m sym cs ep tp env).1 sym) := by
  rcases hl : lookupA m.openPositions sym with _ | pos
  · simp only [check_exit_conditions, hl]
    exact ⟨hnd, by simp [countPartialOrders], fun hd => ⟨by simp [countPartialOrders], hd⟩,
      fun h1 => absurd h1 (by simp [countPartialOrders])⟩
  · simp only [check_exit_conditions, hl]
    by_cases hc : tp ≤ (calculate_unrealized_pnl m sym ep).roiPct ∧ pos.partialClosed = false
    · rw [if_pos hc]
      rcases hpr : (close_partial_position m sym ep cs 50 env).2.1 with _ | tr
      · have heq := close_partial_of_none m sym ep cs 50 env hpr
        simp only [heq]
        by_cases hsp : cs ≤ m.exitSpreadThreshold
        · rw [if_pos hsp]
          obtain ⟨hshape, hcount⟩ := close_position_shape m sym ep cs env
          refine ⟨?_, ?_, ?_, ?_⟩
          · rcases hshape with h1 | h1 <;> rw [h1]
            · exact hnd
            · exact keysNodup_eraseA _ _ hnd
          · simp [hcount]
          · intro hd
            exact ⟨by simp [hcount], partialDone_close_position m sym ep cs env hnd hd⟩
          · intro h1
            simp [hcount] at h1
        · rw [if_neg hsp]
          exact ⟨hnd, by simp [countPartialOrders], fun hd => ⟨by simp [countPartialOrders], hd⟩,
            fun h1 => absurd h1 (by simp [countPartialOrders])⟩
      · have hne : (close_partial_position m sym ep cs 50 env).2.1 ≠ none := by
          rw [hpr]
          exact Option.some_ne_none tr
        obtain ⟨⟨rp, hrp, hshape⟩, hcount⟩ := close_partial_success_shape m sym ep cs 50 env hne
        simp only [hpr]
        have hnd1 : keysNodup (close_partial_position m sym ep cs 50 env).1.openPositions := by
          rw [hshape]
          exact keysNodup_modifyA _ _ _ hnd
        obtain ⟨hslshape, hslcount⟩ := set_stop_loss_shape
          { (close_partial_position m sym ep cs 50 env).1 with
            openPositions := modifyA (close_partial_position m sym ep cs 50 env).1.openPositions
              sym (fun p => { p with partialClosed := true }) } sym env
        have hflag : ∀ p,
            lookupA (modifyA (close_partial_position m sym ep cs 50 env).1.openPositions sym
              (fun q => { q with partialClosed := true })) sym = some p →
              p.partialClosed = true := partialDone_modify_flag _ sym
        have hdonePost : PartialDone
            (set_stop_loss_at_entry
              { (close_partial_position m sym ep cs 50 env).1 with
                openPositions := modifyA (close_partial_position m sym ep cs 50 env).1.openPositions
                  sym (fun p => { p with partialClosed := true }) } sym env).1 sym := by
          intro p hp
          rcases hslshape with h1 | h1
          · rw [h1] at hp
            exact hflag p hp
          · rw [h1] at hp
            exact partialDone_modify_stop _ sym hflag p hp
        refine ⟨?_, ?_, ?_, ?_⟩
        · rcases hslshape with h1 | h1 <;> rw [h1]
          · exact keysNodup_modifyA _ _ _ hnd1
          · exact keysNodup_modifyA _ _ _ (keysNodup_modifyA _ _ _ hnd1)
        · simp [countPartialOrders_append, hcount, hslcount]
        · intro hd
          exfalso
          have := hd pos hl
          rw [hc.2] at this
          cases this
        · intro _
          exact hdonePost
    · rw [if_neg hc]
      by_cases hsp : cs ≤ m.exitSpreadThreshold
      · rw [if_pos hsp]
        obtain ⟨hshape, hcount⟩ := close_position_shape m sym ep cs env
        refine ⟨?_, ?_, ?_, ?_⟩
        · rcases hshape with h1 | h1 <;> rw [h1]
          · exact hnd
          · exact keysNodup_eraseA _ _ hnd
        · rw [hcount]
          omega
        · intro hd
          exact ⟨hcount, partialDone_close_position m sym ep cs env hnd hd⟩
        · intro h1
          exfalso
          rw [hcount] at h1
          omega
      · rw [if_neg hsp]
        exact ⟨hnd, by simp [countPartialOrders], fun hd => ⟨by simp [countPartialOrders], hd⟩,
          fun h1 => absurd h1 (by simp [countPartialOrders])⟩

theorem runExitChecks_done (sym : String) (ts : List ExitTick) :
    ∀ m : Manager, keysNodup m.openPositions → PartialDone m sym →
      countPartialOrders (runExitChecks m sym ts).2 = 0 := by
  induction ts with
  | nil =>
      intro m _ _
      simp [runExitChecks, countPartialOrders]
  | cons t ts ih =>
      intro m hnd hd
      obtain ⟨hnd2, -, hdone, -⟩ :=
        check_exit_step_facts m sym t.currentSpread t.exitPrice t.takeProfitRoi t.env hnd
      obtain ⟨hc0, hd2⟩ := hdone hd
      simp only [runExitChecks, countPartialOrders_append, hc0, ih _ hnd2 hd2]

theorem runExitChecks_le_one (sym : String) (ts : List ExitTick) :
    ∀ m : Manager, keysNodup m.openPositions →
      countPartialOrders (runExitChecks m sym ts).2 ≤ 1 := by
  induction ts with
  | nil =>
      intro m _
      simp [runExitChecks, countPartialOrders]
  | cons t ts ih =>
      intro m hnd
      obtain ⟨hnd2, hle, -, hflag⟩ :=
        check_exit_step_facts m sym t.currentSpread t.exitPrice t.takeProfitRoi t.env hnd
      simp only [runExitChecks, countPartialOrders_append]
      rcases Nat.eq_zero_or_pos (countPartialOrders
          (check_exit_conditions m sym t.currentSpread t.exitPrice t.takeProfitRoi t.env).2.2)
        with h0 | h1
      · rw [h0]
        simpa using ih _ hnd2
      · have hd2 := hflag h1
        have hrest := runExitChecks_done sym ts _ hnd2 hd2
        omega

/-- C8: the take-profit rule fires at most once per position.  Over any
sequence of exit checks at most one partial-close order is submitted; from
any state where every tracked record for the symbol has `partial_closed`
set, none is; and on the tick where the rule fires (ROI at threshold, flag
unset, partial close succeeding) exactly one partial order is placed and
the position afterwards carries `partial_closed = true` with the size
reduced by the 50% partial — for every gateway environment, i.e. whether or
not arming the protective stop succeeds, and with no rollback of the
partial close or of the flag on arming failure. -/
theorem take_profit_fires_at_most_once :
    (∀ (m : Manager) (sym : String) (ts : List ExitTick), keysNodup m.openPositions →
        countPartialOrders (runExitChecks m sym ts).2 ≤ 1)
  ∧ (∀ (m : Manager) (sym : String) (ts : List ExitTick), keysNodup m.openPositions →
        PartialDone m sym → countPartialOrders (runExitChecks m sym ts).2 = 0)
  ∧ (∀ (m : Manager) (sym : String) (cs ep tp : ℚ) (env : GatewayEnv) (pos : Position),
        lookupA m.openPositions sym = some pos → pos.partialClosed = false →
        tp ≤ (calculate_unrealized_pnl m sym ep).roiPct →
        (close_partial_position m sym ep cs 50 env).2.1 ≠ none →
        countPartialOrders (check_exit_conditions m sym cs ep tp env).2.2 = 1 ∧
        (∃ rp p2, lookupA env.remote sym = some rp ∧
          lookupA (check_exit_conditions m sym cs ep tp env).1.openPositions sym = some p2 ∧
          p2.partialClosed = true ∧ p2.size = rp.size - rp.size * 50 / 100)) := by
  refine ⟨fun m sym ts hnd => runExitChecks_le_one sym ts m hnd,
    fun m sym ts hnd hd => runExitChecks_done sym ts m hnd hd, ?_⟩
  intro m sym cs ep tp env pos hl hflag hroi hne
  obtain ⟨⟨rp, hrp, hshape⟩, hcount⟩ := close_partial_success_shape m sym ep cs 50 env hne
  rcases hpr : (close_partial_position m sym ep cs 50 env).2.1 with _ | tr
  · exact absurd hpr hne
  · simp only [check_exit_conditions, hl]
    rw [if_pos ⟨hroi, hflag⟩]
    simp only [hpr]
    have hbase : lookupA (modifyA (close_partial_position m sym ep cs 50 env).1.openPositions sym
        (fun q => { q with partialClosed := true })) sym
        = some { pos with size := rp.size - rp.size * 50 / 100, partialClosed := true } := by
      rw [lookupA_modifyA_self, hshape, lookupA_modifyA_self, hl]
      rfl
    have h2 : lookupA
        ({ (close_partial_position m sym ep cs 50 env).1 with
          openPositions := modifyA (close_partial_position m sym ep cs 50 env).1.openPositions
            sym (fun p => { p with partialClosed := true }) } : Manager).openPositions sym
        = some { pos with size := rp.size - rp.size * 50 / 100, partialClosed := true } := hbase
    obtain ⟨hslshape, hslcount⟩ := set_stop_loss_shape
      { (close_partial_position m sym ep cs 50 env).1 with
        openPositions := modifyA (close_partial_position m sym ep cs 50 env).1.openPositions
          sym (fun p => { p with partialClosed := true }) } sym env
    constructor
    · simp [countPartialOrders_append, hcount, hslcount]
    · refine ⟨rp, ?_⟩
      rcases hslshape with h1 | h1
      · exact ⟨{ pos with size := rp.size - rp.size * 50 / 100, partialClosed := true }, hrp,
          by rw [h1, h2], rfl, rfl⟩
      · exact ⟨{ pos with
            size := rp.size - rp.size * 50 / 100
            partialClosed := true
            stopLossSet := true }, hrp,
          by rw [h1, lookupA_modifyA_self, h2]; rfl, rfl, rfl⟩

theorem close_partial_some_of_ok (m : Manager) (sym : String) (ep es : ℚ) (env : GatewayEnv)
    (pos : Position) (hl : lookupA m.openPositions sym = some pos)
    (hok : partialCloseOk sym env = true) :
    (close_partial_position m sym ep es 50 env).2.1 ≠ none := by
  unfold partialCloseOk at hok
  rcases hr : lookupA env.remote sym with _ | rp
  · rw [hr] at hok
    cases hok
  · rw [hr] at hok
    simp only [Bool.and_eq_true] at hok
    obtain ⟨h1, h2⟩ := hok
    have hzz : ¬rp.size * 50 / 100 = 0 := by
      simpa using h1
    unfold close_partial_position
    rw [hl, hr]
    simp [hzz, h2]

theorem take_profit_fires_at_most_once_witness :
    keysNodup mgrA.openPositions ∧
    countPartialOrders (runExitChecks mgrA "A" [tickW]).2 ≤ 1 ∧
    keysNodup mgrTaken.openPositions ∧ PartialDone mgrTaken "A" ∧
    countPartialOrders (runExitChecks mgrTaken "A" [tickW]).2 = 0 ∧
    lookupA mgrA.openPositions "A" = some samplePosition ∧
    samplePosition.partialClosed = false ∧
    (50 : ℚ) ≤ (calculate_unrealized_pnl mgrA "A" 110).roiPct ∧
    (close_partial_position mgrA "A" 110 5 50 envRemoteA).2.1 ≠ none ∧
    countPartialOrders (check_exit_conditions mgrA "A" 5 110 50 envRemoteA).2.2 = 1 := by
  have hnd : keysNodup mgrA.openPositions := by decide
  have hndT : keysNodup mgrTaken.openPositions := by decide
  have hdT : PartialDone mgrTaken "A" := by
    intro p hp
    have hsp : samplePositionTaken = p := by
      simpa [mgrTaken, sampleManager, samplePositionTaken, lookupA] using hp
    rw [← hsp]
    rfl
  have hlA : lookupA mgrA.openPositions "A" = some samplePosition := by
    simp [mgrA, sampleManager, lookupA]
  have hroiA : (50 : ℚ) ≤ (calculate_unrealized_pnl mgrA "A" 110).roiPct := by
    norm_num [calculate_unrealized_pnl, mgrA, sampleManager, samplePosition, lookupA]
  have hneA : (close_partial_position mgrA "A" 110 5 50 envRemoteA).2.1 ≠ none := by
    refine close_partial_some_of_ok mgrA "A" 110 5 envRemoteA samplePosition ?_ (by decide)
    simp [mgrA, sampleManager, lookupA]
  exact ⟨hnd, take_profit_fires_at_most_once.1 mgrA "A" [tickW] hnd, hndT, hdT,
    take_profit_fires_at_most_once.2.1 mgrTaken "A" [tickW] hndT hdT, hlA, rfl, hroiA, hneA,
    (take_profit_fires_at_most_once.2.2 mgrA "A" 5 110 50 envRemoteA samplePosition hlA rfl
      hroiA hneA).1⟩

end MM
